import Mathlib

/-!
Verification development for the `tosca-stack` descriptor-construction crate.

The crate's bounded collections (`src/utils/sets.rs`, `src/utils/maps.rs`) wrap
`heapless::FnvIndexSet` / `heapless::FnvIndexMap`: fixed-capacity,
insertion-order-preserving hash collections.  Their observable state is the
sequence of stored entries in insertion order; the hash index only affects
lookup speed, never content or order.  We embed that observable state as a
list together with the compile-time capacity `N`, and each Rust operation as a
function on it:

* `insert` on the underlying heapless collection first looks the key up; if it
  is present the stored value is replaced in place (the key keeps its
  position, even when the collection is full); otherwise, if there is room,
  the entry is appended; otherwise the heapless call returns `Err`, which the
  crate discards with `let _ = ...` — a silent no-op.

The three visibility variants (`Set`/`SerialSet`/`OutputSet`, and
`Map`/`SerialMap`/`OutputMap`) are generated from one macro body
(`set_implementation!` / `map_implementation!`) over the same physical
structure, so a single Lean definition embeds all three; the variant names are
kept as abbreviations.
-/

namespace Tosca

/-- Observable state of `Set<V, N>` (`src/utils/sets.rs`): the elements in
insertion order, bounded by the capacity parameter `N`. -/
structure Set (V : Type) (N : Nat) where
  elements : List V
deriving DecidableEq, Repr

/-- Observable state of `Map<K, V, N>` (`src/utils/maps.rs`): the key-value
entries in insertion order, bounded by the capacity parameter `N`. -/
structure Map (K V : Type) (N : Nat) where
  entries : List (K × V)
deriving DecidableEq, Repr

/-- The serializable set variant: `SerialSet<V, N>` is generated by the same
`set_implementation!` macro over the same physical structure. -/
abbrev SerialSet (V : Type) (N : Nat) := Set V N

/-- The serializable and deserializable set variant: `OutputSet<V, N>` is
generated by the same `set_implementation!` macro. -/
abbrev OutputSet (V : Type) (N : Nat) := Set V N

/-- The serializable map variant: `SerialMap<K, V, N>` is generated by the same
`map_implementation!` macro over the same physical structure. -/
abbrev SerialMap (K V : Type) (N : Nat) := Map K V N

/-- The serializable and deserializable map variant: `OutputMap<K, V, N>`. -/
abbrev OutputMap (K V : Type) (N : Nat) := Map K V N

namespace Set

variable {V W : Type} {N : Nat}

/-- Creates an empty set (`Set::new`). -/
def new : Set V N := ⟨[]⟩

/-- Returns the set length (`len`). -/
def len (s : Set V N) : Nat := s.elements.length

/-- Checks whether the set is empty (`is_empty`). -/
def is_empty (s : Set V N) : Bool := s.elements.isEmpty

/-- Checks whether the set contains the given element (`contains`). -/
def contains [DecidableEq V] (s : Set V N) (v : V) : Bool := s.elements.contains v

/-- Inserts an element (`insert`, the by-value builder form).  Embeds
`let _ = self.0.insert(element)` on the heapless `FnvIndexSet`: an element
already present leaves the set unchanged; a new element is appended when there
is room and silently dropped otherwise (the `Err` is discarded). -/
def insert [DecidableEq V] (s : Set V N) (v : V) : Set V N :=
  if s.elements.contains v then s
  else if s.elements.length < N then ⟨s.elements ++ [v]⟩
  else s

/-- Adds an element (`add`, the `&mut self` accumulator form); its body is the
same `let _ = self.0.insert(element)` as `insert`. -/
def add [DecidableEq V] (s : Set V N) (v : V) : Set V N := s.insert v

/-- Initializes a set with a determined element (`init`): `new` then `add`. -/
def init [DecidableEq V] (v : V) : Set V N := (new : Set V N).add v

/-- Returns the iteration sequence (`iter`), which is the insertion order. -/
def iter (s : Set V N) : List V := s.elements

/-- Initializes a set with a list of elements (`init_with_elements`):
`new` then `add` for each element in order. -/
def init_with_elements [DecidableEq V] (l : List V) : Set V N :=
  l.foldl add (new : Set V N)

/-- The union iterator of heapless `FnvIndexSet::union`: the elements of
`self` followed by the elements of `other` not contained in `self`
(`self.iter().chain(other.difference(self))`), in their respective orders. -/
def unionSeq [DecidableEq V] (a b : Set V N) : List V :=
  a.elements ++ b.elements.filter (fun x => !a.elements.contains x)

/-- One element step of collecting into a heapless `FnvIndexSet`: the
`FromIterator`/`Extend` implementations run `self.insert(..).ok().unwrap()`
per element, so an element already present is a no-op, a new element is
appended while there is room, and a new element on a full set makes the
`unwrap` panic — the panic is modelled as `none`. -/
def insertUnwrap [DecidableEq V] (s : Set V N) (v : V) : Option (Set V N) :=
  if s.elements.contains v then some s
  else if s.elements.length < N then some ⟨s.elements ++ [v]⟩
  else none

/-- Collecting an iterator into a fresh heapless `FnvIndexSet` inserts the
produced elements one by one into an empty set, unwrapping each result;
`none` models the panic raised when the iterator holds more than `N`
distinct elements. -/
def collect [DecidableEq V] (l : List V) : Option (Set V N) :=
  l.foldlM insertUnwrap (new : Set V N)

/-- Merges all elements from another set into this one (`merge`):
`self.0 = self.0.union(&element.0).copied().collect()`; the result is `none`
when the union overflows the capacity and the collect panics. -/
def merge [DecidableEq V] (a b : Set V N) : Option (Set V N) :=
  collect (unionSeq a b)

/-- Embeds the `from_set!` conversion body (`From<Set<V1, N>> for SerialSet<V, N>`
and `From<Set<V1, N>> for OutputSet<V, N>`): a fresh target collection, filled
by inserting `V::from(*element)` for each source element in iteration order.
The element coercion `V::from` is the function argument `f`. -/
def fromSet [DecidableEq W] (f : V → W) (s : Set V N) : Set W N :=
  s.elements.foldl (fun t x => t.add (f x)) (new : Set W N)

/-- Well-formedness of the observable state: the stored elements are pairwise
distinct (the heapless index set deduplicates) and there are at most `N` of
them.  Every reachable set satisfies it. -/
def wf (s : Set V N) : Prop := s.elements.Nodup ∧ s.elements.length ≤ N

instance [DecidableEq V] (s : Set V N) : Decidable s.wf := by
  unfold wf; infer_instance

end Set

namespace Map

variable {K V K1 V1 : Type} {N : Nat}

/-- Creates an empty map (`Map::new`). -/
def new : Map K V N := ⟨[]⟩

/-- The stored keys in insertion order. -/
def keys (m : Map K V N) : List K := m.entries.map Prod.fst

/-- Returns the map length (`len`). -/
def len (m : Map K V N) : Nat := m.entries.length

/-- Checks whether the map is empty (`is_empty`). -/
def is_empty (m : Map K V N) : Bool := m.entries.isEmpty

/-- Checks whether the map contains the given key (`contains_key`). -/
def contains_key [DecidableEq K] (m : Map K V N) (k : K) : Bool :=
  (m.keys).contains k

/-- Inserts an entry (`insert`, the by-value builder form).  Embeds
`let _ = self.0.insert(key, value)` on the heapless `FnvIndexMap`: an existing
key keeps its position and has its value replaced (also when the map is full);
a new key is appended when there is room and silently dropped otherwise. -/
def insert [DecidableEq K] (m : Map K V N) (k : K) (v : V) : Map K V N :=
  if (m.keys).contains k then
    ⟨m.entries.map (fun p => if p.1 = k then (p.1, v) else p)⟩
  else if m.entries.length < N then ⟨m.entries ++ [(k, v)]⟩
  else m

/-- Adds an entry (`add`, the `&mut self` accumulator form); its body is the
same `let _ = self.0.insert(key, value)` as `insert`. -/
def add [DecidableEq K] (m : Map K V N) (k : K) (v : V) : Map K V N := m.insert k v

/-- Initializes a map with a determined entry (`init`): `new` then `insert`. -/
def init [DecidableEq K] (k : K) (v : V) : Map K V N := (new : Map K V N).insert k v

/-- Returns the iteration sequence (`iter`), which is the insertion order. -/
def iter (m : Map K V N) : List (K × V) := m.entries

/-- Initializes a map with a list of `(key, value)` (`init_with_elements`). -/
def init_with_elements [DecidableEq K] (l : List (K × V)) : Map K V N :=
  l.foldl (fun m kv => m.add kv.1 kv.2) (new : Map K V N)

/-- Embeds the `from_map!` conversion body (`From<Map<K1, V1, N>>` for
`SerialMap<K, V, N>` / `OutputMap<K, V, N>`): a fresh target map, filled by
inserting `(K::from(key), V::from(value))` for each source entry in iteration
order.  The coercions `K::from` / `V::from` are the arguments `fk` / `fv`. -/
def fromMap [DecidableEq K1] (fk : K → K1) (fv : V → V1) (m : Map K V N) :
    Map K1 V1 N :=
  m.entries.foldl (fun t kv => t.add (fk kv.1) (fv kv.2)) (new : Map K1 V1 N)

/-- Well-formedness of the observable state: stored keys are pairwise distinct
and there are at most `N` entries.  Every reachable map satisfies it. -/
def wf (m : Map K V N) : Prop := m.keys.Nodup ∧ m.entries.length ≤ N

instance [DecidableEq K] (m : Map K V N) : Decidable m.wf := by
  unfold wf; infer_instance

end Map

/-!
Error handling (`src/error.rs`) and the fixed-capacity text value
(`src/utils/string.rs`, wrapping `heapless::String<N>`).  Text content is
embedded as a list of characters; the byte budget counts UTF-8 sizes, matching
the `N`-byte buffer of `heapless::String`.  All failing heapless mutations
(`from_str`, `push_str` via `Vec::extend_from_slice`, `push`) check the byte
budget before copying anything, so an error leaves the buffer untouched.
-/

/-- All possible error kinds (`ErrorKind` in `src/error.rs`). -/
inductive ErrorKind where
  | FixedText
deriving DecidableEq, Repr

/-- The static description of an error kind (`ErrorKind::description`). -/
def ErrorKind.description : ErrorKind → String
  | .FixedText => "Fixed-size text"

/-- General error (`Error` in `src/error.rs`). -/
structure Error where
  kind : ErrorKind
  info : String
deriving DecidableEq, Repr

/-- Constructs an error (`Error::new`). -/
def Error.new (kind : ErrorKind) (info : String) : Error := ⟨kind, info⟩

/-- The `Display` rendering of an `Error`:
`writeln!(f, "{}: {} ", self.kind, self.info)` writes the formatted text and
then a newline, and `ErrorKind`'s `Display` delegates to `description`. -/
def Error.display (e : Error) : String :=
  (e.kind.description ++ ": " ++ e.info ++ " ") ++ "\n"

/-- The byte length of a character sequence under UTF-8, the unit in which
`heapless::String<N>` accounts its fixed capacity. -/
def byteLen (l : List Char) : Nat := (l.map Char.utf8Size).sum

/-- A fixed-capacity string of at most `N` bytes (`String<N>` in
`src/utils/string.rs`), renamed to avoid clashing with the core string type. -/
structure BoundedString (N : Nat) where
  chars : List Char
deriving DecidableEq, Repr

namespace BoundedString

variable {N : Nat}

/-- Creates an empty fixed-capacity string (`String::empty`). -/
def empty : BoundedString N := ⟨[]⟩

/-- Creates a fixed-capacity string (`String::new`): `heapless::String::from_str`
copies the text when its byte length fits in `N` and fails otherwise, which the
crate maps to a `FixedText` error. -/
def new (N : Nat) (text : List Char) : Except Error (BoundedString N) :=
  if byteLen text ≤ N then .ok ⟨text⟩
  else .error (Error.new .FixedText
    "Impossible to create a new stack string.\nCharacters might not be UTF-8 or its length is wrong.")

/-- Creates an infallible fixed-capacity string (`String::infallible`):
`new` with the error collapsed into `empty`. -/
def infallible (N : Nat) (text : List Char) : BoundedString N :=
  match new N text with
  | .ok s => s
  | .error _ => empty

/-- Checks whether the string is empty (`String::is_empty`). -/
def is_empty (s : BoundedString N) : Bool := s.chars.isEmpty

/-- Appends a string slice (`String::push`): `heapless::String::push_str`
delegates to `Vec::extend_from_slice`, which errors out before copying
anything when the result would exceed `N` bytes.  The returned pair is the
call's result and the buffer after the call. -/
def push (s : BoundedString N) (text : List Char) :
    Except Error Unit × BoundedString N :=
  if byteLen s.chars + byteLen text ≤ N then (.ok (), ⟨s.chars ++ text⟩)
  else
    (.error (Error.new .FixedText
      "Impossible to add another stack string at the end of the current one."), s)

/-- Appends a character (`String::push_char`): `heapless::String::push` errors
out before writing when the encoded character would exceed `N` bytes. -/
def push_char (s : BoundedString N) (c : Char) :
    Except Error Unit × BoundedString N :=
  if byteLen s.chars + c.utf8Size ≤ N then (.ok (), ⟨s.chars ++ [c]⟩)
  else
    (.error (Error.new .FixedText
      "Impossible to add a char at the end of the stack string."), s)

end BoundedString

/-!
Domain vocabulary.  The REST verb, response-kind and hazard enumerations live
in the external `tosca` crate (an external collaborator per the spec); the
core stores and compares them as opaque values.  They are modelled with the
constructors this repository actually uses, plus a spare constructor where a
claim would otherwise be vacuous.
-/

/-- Modelled from the spec: the REST verb enumeration `RestKind` is supplied by
the external `tosca` crate; the four verbs are the ones this repository's
`Route::get/put/post/delete` constructors use. -/
inductive RestKind where
  | Get
  | Put
  | Post
  | Delete
deriving DecidableEq, Repr

/-- Modelled from the spec: the response-kind classification `ResponseKind` is
an opaque enumeration from the external `tosca` crate.  This repository's
tests pin its `Default` value to the variant serialized as `"Ok"`; a second
constructor keeps the type non-trivial. -/
inductive ResponseKind where
  | Ok
  | NonDefault
deriving DecidableEq, Repr

/-- The `Default::default()` value of `ResponseKind` (serialized as `"Ok"` in
this repository's route tests). -/
def ResponseKind.default : ResponseKind := .Ok

/-- Modelled from the spec: hazard identifiers are drawn from a fixed external
catalog (`tosca::hazards::Hazard`), consumed as opaque comparable values; the
constructors are the ones used in this repository's tests. -/
inductive Hazard where
  | FireHazard
  | AirPoisoning
  | Explosion
deriving DecidableEq, Repr

/-- A collection of hazards (`Hazards<N>` in `src/hazards.rs`):
an `OutputSet<Hazard, N>`. -/
abbrev Hazards (N : Nat) := OutputSet Hazard N

/-!
Route input parameters (`src/parameters.rs`).  The scalar payloads are stored,
compared and copied but never computed with by this crate, so the unsigned
widths are embedded as natural numbers and the floating-point payloads as
their bit patterns (natural numbers); no claim inspects a float value.
-/

/-- All supported kinds of route input parameters (`ParameterKind`).  The
`F32`/`F64`/`RangeF64` payloads are IEEE-754 bit patterns, only ever stored
and copied by this layer. -/
inductive ParameterKind where
  | Bool (default : Bool)
  | U8 (default : Nat)
  | U16 (default : Nat)
  | U32 (default : Nat)
  | U64 (default : Nat)
  | F32 (default : Nat)
  | F64 (default : Nat)
  | RangeU64 (min max step default : Nat)
  | RangeF64 (min max step default : Nat)
deriving DecidableEq, Repr

/-- A map of serializable parameters data (`ParametersData<N>` in
`src/parameters.rs`): a `SerialMap<&str, ParameterKind, N>`. -/
abbrev ParametersData (N : Nat) := SerialMap String ParameterKind N

/-- Route input parameters (`Parameters<N>` in `src/parameters.rs`): a
newtype around `Map<&str, ParameterKind, N>`. -/
structure Parameters (N : Nat) where
  map : Map String ParameterKind N
deriving DecidableEq, Repr

namespace Parameters

variable {N : Nat}

/-- Creates an empty parameter map (`Parameters::new`). -/
def new : Parameters N := ⟨Map.new⟩

/-- Private helper (`Parameters::create_parameter`): inserts the named
parameter descriptor into the underlying map. -/
def create_parameter (p : Parameters N) (name : String)
    (parameter_kind : ParameterKind) : Parameters N :=
  ⟨p.map.insert name parameter_kind⟩

/-- Adds a `bool` parameter (`Parameters::bool`). -/
def bool (p : Parameters N) (name : String) (default : Bool) : Parameters N :=
  p.create_parameter name (.Bool default)

/-- Adds an `u8` parameter (`Parameters::u8`). -/
def u8 (p : Parameters N) (name : String) (default : Nat) : Parameters N :=
  p.create_parameter name (.U8 default)

/-- Adds an `u16` parameter (`Parameters::u16`). -/
def u16 (p : Parameters N) (name : String) (default : Nat) : Parameters N :=
  p.create_parameter name (.U16 default)

/-- Adds an `u32` parameter (`Parameters::u32`). -/
def u32 (p : Parameters N) (name : String) (default : Nat) : Parameters N :=
  p.create_parameter name (.U32 default)

/-- Adds an `u64` parameter (`Parameters::u64`). -/
def u64 (p : Parameters N) (name : String) (default : Nat) : Parameters N :=
  p.create_parameter name (.U64 default)

/-- Adds a `f32` parameter (`Parameters::f32`); the payload is a bit pattern. -/
def f32 (p : Parameters N) (name : String) (default : Nat) : Parameters N :=
  p.create_parameter name (.F32 default)

/-- Adds a `f64` parameter (`Parameters::f64`); the payload is a bit pattern. -/
def f64 (p : Parameters N) (name : String) (default : Nat) : Parameters N :=
  p.create_parameter name (.F64 default)

/-- Adds an `u64` range with a default value (`Parameters::rangeu64_with_default`). -/
def rangeu64_with_default (p : Parameters N) (name : String)
    (range : Nat × Nat × Nat) (default : Nat) : Parameters N :=
  p.create_parameter name
    (.RangeU64 range.1 range.2.1 range.2.2 default)

/-- Adds an `u64` range without a default value (`Parameters::rangeu64`). -/
def rangeu64 (p : Parameters N) (name : String) (range : Nat × Nat × Nat) :
    Parameters N :=
  p.rangeu64_with_default name range 0

/-- Adds a `f64` range with a default value (`Parameters::rangef64_with_default`);
payloads are bit patterns. -/
def rangef64_with_default (p : Parameters N) (name : String)
    (range : Nat × Nat × Nat) (default : Nat) : Parameters N :=
  p.create_parameter name
    (.RangeF64 range.1 range.2.1 range.2.2 default)

/-- Serializes the parameters (`Parameters::serialize_data`): a fresh
`ParametersData`, filled by `add`ing each accumulated entry in iteration
order. -/
def serialize_data (p : Parameters N) : ParametersData N :=
  p.map.entries.foldl (fun d kv => d.add kv.1 kv.2) (Map.new : ParametersData N)

end Parameters

/-!
Routes (`src/route.rs`).  A `Route` accumulates a name, REST verb, optional
description, hazards and parameters; `serialize_data` finalizes it into a
`RouteConfig` wrapping a `RouteData`.  The `PartialEq` and `Hash`
implementations are hand-written; hashing is embedded as the exact sequence of
fields the implementation feeds to the `Hasher`, so two values produce
identical hashes for every hasher exactly when their streams are equal.
-/

/-- A server route (`Route<H, P>` in `src/route.rs`). -/
structure Route (H P : Nat) where
  name : String
  rest_kind : RestKind
  description : Option String
  parameters : Parameters P
  hazards : Hazards H
deriving DecidableEq, Repr

/-- Route data (`RouteData<H, P>` in `src/route.rs`). -/
structure RouteData (H P : Nat) where
  name : String
  description : Option String
  hazards : Hazards H
  parameters : ParametersData P
deriving DecidableEq, Repr

/-- A server route configuration (`RouteConfig<H, P>` in `src/route.rs`). -/
structure RouteConfig (H P : Nat) where
  data : RouteData H P
  rest_kind : RestKind
  response_kind : ResponseKind
deriving DecidableEq, Repr

/-- One field fed to a `Hasher` by a hand-written `Hash` implementation in
`src/route.rs`. -/
inductive HashTok where
  | str (s : String)
  | rest (k : RestKind)
  | optStr (o : Option String)
deriving DecidableEq, Repr

namespace Route

variable {H P H2 P2 : Nat}

/-- The shared constructor body (`Route::init`): a `Route<2, 2>` with no
description, no parameters and no hazards. -/
def init (rest_kind : RestKind) (route : String) : Route 2 2 :=
  { name := route
    rest_kind := rest_kind
    description := none
    parameters := Parameters.new
    hazards := Set.new }

/-- Creates a route through a REST `GET` API (`Route::get`). -/
def get (route : String) : Route 2 2 := init .Get route

/-- Creates a route through a REST `PUT` API (`Route::put`). -/
def put (route : String) : Route 2 2 := init .Put route

/-- Creates a route through a REST `POST` API (`Route::post`). -/
def post (route : String) : Route 2 2 := init .Post route

/-- Creates a route through a REST `DELETE` API (`Route::delete`). -/
def delete (route : String) : Route 2 2 := init .Delete route

/-- Sets the route description (the `Route::description` builder method,
renamed here because the Lean structure field already takes that name). -/
def set_description (r : Route H P) (d : String) : Route H P :=
  { r with description := some d }

/-- Changes the route path (`Route::change_route`). -/
def change_route (r : Route H P) (route : String) : Route H P :=
  { r with name := route }

/-- Adds hazards to a route (`Route::with_hazards`), replacing the hazard
collection and its capacity parameter. -/
def with_hazards (r : Route H P) (hazards : Hazards H2) : Route H2 P :=
  { name := r.name
    rest_kind := r.rest_kind
    description := r.description
    parameters := r.parameters
    hazards := hazards }

/-- Adds parameters to a route (`Route::with_parameters`), replacing the
parameter collection and its capacity parameter. -/
def with_parameters (r : Route H P) (parameters : Parameters P2) : Route H P2 :=
  { name := r.name
    rest_kind := r.rest_kind
    description := r.description
    parameters := parameters
    hazards := r.hazards }

/-- The hand-written `PartialEq` for `Route`: name and REST kind only. -/
def beq (a b : Route H P) : Bool :=
  a.name == b.name && a.rest_kind == b.rest_kind

/-- The hand-written `Hash` for `Route`: it feeds `name`, `rest_kind` and
`description` to the hasher, in that order. -/
def hashStream (r : Route H P) : List HashTok :=
  [.str r.name, .rest r.rest_kind, .optStr r.description]

end Route

namespace RouteData

variable {H P : Nat}

/-- Builds `RouteData` from a route (`RouteData::new`), finalizing the
parameters. -/
def new (route : Route H P) : RouteData H P :=
  { name := route.name
    description := route.description
    hazards := route.hazards
    parameters := route.parameters.serialize_data }

/-- The hand-written `PartialEq` for `RouteData`: name only. -/
def beq (a b : RouteData H P) : Bool := a.name == b.name

end RouteData

namespace RouteConfig

variable {H P : Nat}

/-- Builds a `RouteConfig` from a route (`RouteConfig::new`): the response
kind is always `ResponseKind::default()`. -/
def new (route : Route H P) : RouteConfig H P :=
  { rest_kind := route.rest_kind
    response_kind := ResponseKind.default
    data := RouteData.new route }

/-- The hand-written `PartialEq` for `RouteConfig`: `RouteData` equality
(name only) and REST kind. -/
def beq (a b : RouteConfig H P) : Bool :=
  RouteData.beq a.data b.data && a.rest_kind == b.rest_kind

/-- The hand-written `Hash` for `RouteConfig`: it feeds `data.name` and
`rest_kind` to the hasher, in that order. -/
def hashStream (c : RouteConfig H P) : List HashTok :=
  [.str c.data.name, .rest c.rest_kind]

end RouteConfig

/-- Serializes route data (`Route::serialize_data`), consuming the route. -/
def Route.serialize_data {H P : Nat} (r : Route H P) : RouteConfig H P :=
  RouteConfig.new r

/-!
Energy and economy records (`src/energy.rs`, `src/economy.rs`) and the device
descriptor (`src/device.rs`).  The value types (`EnergyEfficiency`,
`CarbonFootprint`, `WaterUseEfficiency`, `Cost`, `Roi`) come from the external
`tosca` crate and are opaque to this layer; each is modelled as a wrapper
around an integer payload, enough for storing, comparing and encoding.

The encoding boundary is serde's derived `Serialize` with the field attributes
of the source: a struct serializes to the list of its fields in declaration
order, a field marked `skip_serializing_if = P` is omitted exactly when `P`
holds, and `rename` fixes the emitted field name.  We embed the encoder output
as a list of named JSON fields.
-/

/-- Modelled from the spec: an opaque energy-efficiency value from the
external `tosca` crate. -/
structure EnergyEfficiency where
  payload : Int
deriving DecidableEq, Repr

/-- Modelled from the spec: an opaque carbon-footprint value from the
external `tosca` crate. -/
structure CarbonFootprint where
  payload : Int
deriving DecidableEq, Repr

/-- Modelled from the spec: an opaque water-use-efficiency value from the
external `tosca` crate. -/
structure WaterUseEfficiency where
  payload : Int
deriving DecidableEq, Repr

/-- Modelled from the spec: an opaque cost value from the external `tosca`
crate. -/
structure Cost where
  payload : Int
deriving DecidableEq, Repr

/-- Modelled from the spec: an opaque return-on-investment value from the
external `tosca` crate. -/
structure Roi where
  payload : Int
deriving DecidableEq, Repr

/-- A collection of energy efficiencies (`EnergyEfficiencies<E>`). -/
abbrev EnergyEfficiencies (E : Nat) := OutputSet EnergyEfficiency E

/-- A collection of carbon footprints (`CarbonFootprints<CF>`). -/
abbrev CarbonFootprints (CF : Nat) := OutputSet CarbonFootprint CF

/-- A collection of costs (`Costs<C>`). -/
abbrev Costs (C : Nat) := OutputSet Cost C

/-- A collection of returns on investment (`Rois<R>`). -/
abbrev Rois (R : Nat) := OutputSet Roi R

/-- Energy information of a device (`Energy<E, CF>` in `src/energy.rs`). -/
structure Energy (E CF : Nat) where
  energy_efficiencies : Option (EnergyEfficiencies E)
  carbon_footprints : Option (CarbonFootprints CF)
  water_use_efficiency : Option WaterUseEfficiency
deriving DecidableEq, Repr

namespace Energy

variable {E CF : Nat}

/-- Creates an empty energy record (`Energy::empty`). -/
def empty : Energy E CF := ⟨none, none, none⟩

/-- Checks whether the energy record is completely empty (`Energy::is_empty`):
all three optional fields absent. -/
def is_empty (e : Energy E CF) : Bool :=
  e.energy_efficiencies.isNone && e.carbon_footprints.isNone &&
    e.water_use_efficiency.isNone

/-- Adds energy-efficiencies data (`Energy::energy_efficiencies`). -/
def energy_efficiencies_set {E2 : Nat} (e : Energy E CF)
    (ee : EnergyEfficiencies E2) : Energy E2 CF :=
  { energy_efficiencies := some ee
    carbon_footprints := e.carbon_footprints
    water_use_efficiency := e.water_use_efficiency }

/-- Adds carbon-footprints data (`Energy::carbon_footprints`). -/
def carbon_footprints_set {CF2 : Nat} (e : Energy E CF)
    (cf : CarbonFootprints CF2) : Energy E CF2 :=
  { energy_efficiencies := e.energy_efficiencies
    carbon_footprints := some cf
    water_use_efficiency := e.water_use_efficiency }

/-- Adds water-use-efficiency data (`Energy::water_use_efficiency` builder
method, suffixed because the Lean structure field takes that name). -/
def water_use_efficiency_set (e : Energy E CF) (w : WaterUseEfficiency) :
    Energy E CF :=
  { e with water_use_efficiency := some w }

end Energy

/-- Economy data for a device (`Economy<C, R>` in `src/economy.rs`). -/
structure Economy (C R : Nat) where
  costs : Option (Costs C)
  roi : Option (Rois R)
deriving DecidableEq, Repr

namespace Economy

variable {C R : Nat}

/-- Creates an empty economy record (`Economy::empty`). -/
def empty : Economy C R := ⟨none, none⟩

/-- Checks whether the economy record is completely empty
(`Economy::is_empty`): both optional fields absent. -/
def is_empty (e : Economy C R) : Bool := e.costs.isNone && e.roi.isNone

end Economy

/-- Device information (`DeviceInfo<C, R, E, CF>` in `src/device.rs`). -/
structure DeviceInfo (C R E CF : Nat) where
  economy : Economy C R
  energy : Energy E CF
deriving DecidableEq, Repr

namespace DeviceInfo

/-- Creates an empty device-information record (`DeviceInfo::empty`). -/
def empty : DeviceInfo 2 2 2 2 := ⟨Economy.empty, Energy.empty⟩

/-- Adds energy data (`DeviceInfo::add_energy`), replacing the energy
sub-record and its capacity parameters. -/
def add_energy {C R E CF E2 CF2 : Nat} (d : DeviceInfo C R E CF)
    (energy : Energy E2 CF2) : DeviceInfo C R E2 CF2 :=
  { energy := energy, economy := d.economy }

/-- Adds economy data (`DeviceInfo::add_economy`), replacing the economy
sub-record and its capacity parameters. -/
def add_economy {C R E CF C2 R2 : Nat} (d : DeviceInfo C R E CF)
    (economy : Economy C2 R2) : DeviceInfo C2 R2 E CF :=
  { energy := d.energy, economy := economy }

end DeviceInfo

/-- A structured encoder value: the shape the external encoder (serde_json in
the tests) receives when walking a descriptor. -/
inductive Json where
  | num (n : Int)
  | arr (l : List Json)
  | obj (fields : List (String × Json))

/-- Encoding of an output set: the elements in iteration order, each encoded
by the element encoder. -/
def Set.encodeWith {V : Type} {N : Nat} (f : V → Json) (s : Set V N) : Json :=
  .arr (s.elements.map f)

/-- The serde encoding of an `Energy` record: its three fields in declaration
order, each renamed per its `serde(rename)` attribute and omitted when `None`
per its `serde(skip_serializing_if = "Option::is_none")` attribute. -/
def Energy.encode {E CF : Nat} (e : Energy E CF) : List (String × Json) :=
  (match e.energy_efficiencies with
    | some s => [("energy-efficiencies", s.encodeWith (fun x => .num x.payload))]
    | none => []) ++
  (match e.carbon_footprints with
    | some s => [("carbon-footprints", s.encodeWith (fun x => .num x.payload))]
    | none => []) ++
  (match e.water_use_efficiency with
    | some w => [("water-use-efficiency", .num w.payload)]
    | none => [])

/-- The serde encoding of an `Economy` record: its two fields in declaration
order, each omitted when `None` per its
`serde(skip_serializing_if = "Option::is_none")` attribute. -/
def Economy.encode {C R : Nat} (e : Economy C R) : List (String × Json) :=
  (match e.costs with
    | some s => [("costs", s.encodeWith (fun x => .num x.payload))]
    | none => []) ++
  (match e.roi with
    | some s => [("roi", s.encodeWith (fun x => .num x.payload))]
    | none => [])

/-- The serde encoding of a `DeviceInfo`: the `economy` field, omitted when
`Economy::is_empty` per its `serde(skip_serializing_if)` attribute, then the
`energy` field, omitted when `Energy::is_empty`. -/
def DeviceInfo.encode {C R E CF : Nat} (d : DeviceInfo C R E CF) :
    List (String × Json) :=
  (if d.economy.is_empty then [] else [("economy", .obj d.economy.encode)]) ++
  (if d.energy.is_empty then [] else [("energy", .obj d.energy.encode)])

/-!
Lemma layer for the bounded collections: how `insert` behaves in each of its
three cases, that well-formedness is an invariant, and the append law for a
fold of insertions of fresh elements.
-/

namespace Set

variable {V W : Type} [DecidableEq V] {N : Nat}

theorem insert_of_mem {s : Set V N} {v : V}
    (h : s.elements.contains v = true) : s.insert v = s := by
  have hv : v ∈ s.elements := by simpa using h
  simp [insert, hv]

theorem insert_of_room {s : Set V N} {v : V}
    (h : s.elements.contains v = false) (h2 : s.elements.length < N) :
    (s.insert v).elements = s.elements ++ [v] := by
  have hv : v ∉ s.elements := by simpa using h
  simp [insert, hv, h2]

theorem insert_of_full {s : Set V N} {v : V}
    (h : s.elements.contains v = false) (h2 : ¬s.elements.length < N) :
    s.insert v = s := by
  simp [insert, h, h2]

theorem new_wf : (new : Set V N).wf := by
  simp [wf, new]

theorem insert_wf {s : Set V N} (v : V) (hs : s.wf) : (s.insert v).wf := by
  by_cases h : s.elements.contains v = true
  · rw [insert_of_mem h]; exact hs
  · have h' : s.elements.contains v = false := by simpa using h
    by_cases h2 : s.elements.length < N
    · refine ⟨?_, ?_⟩
      · rw [insert_of_room h' h2]
        have hv : v ∉ s.elements := by simpa using h'
        simp [List.nodup_append, hs.1, hv]
      · have : (s.insert v).elements = s.elements ++ [v] := insert_of_room h' h2
        simp [len, this]
        omega
    · rw [insert_of_full h' h2]; exact hs

theorem foldl_add_append :
    ∀ (l : List V) (s : Set V N), (s.elements ++ l).Nodup →
      s.elements.length + l.length ≤ N →
      (l.foldl add s).elements = s.elements ++ l := by
  intro l
  induction l with
  | nil => intro s _ _; simp
  | cons x l ih =>
    intro s hnd hlen
    have hx : x ∉ s.elements := by
      intro hmem
      have : ¬List.Disjoint s.elements (x :: l) := by
        intro hd; exact (hd hmem (by simp)).elim
      exact this ((List.nodup_append.mp hnd).2.2)
    have hcon : s.elements.contains x = false := by simpa using hx
    have hlt : s.elements.length < N := by
      simp at hlen; omega
    have hstep : (s.add x).elements = s.elements ++ [x] :=
      insert_of_room hcon hlt
    have hrec := ih (s.add x)
      (by rw [hstep, List.append_assoc]; simpa using hnd)
      (by rw [hstep]; simp at hlen ⊢; omega)
    rw [List.foldl_cons, hrec, hstep, List.append_assoc]
    simp

theorem foldl_add_wf :
    ∀ (l : List V) (s : Set V N), s.wf → (l.foldl add s).wf := by
  intro l
  induction l with
  | nil => intro s hs; simpa using hs
  | cons x l ih => intro s hs; exact ih (s.add x) (insert_wf x hs)

theorem foldlM_insertUnwrap_append :
    ∀ (l : List V) (s : Set V N), (s.elements ++ l).Nodup →
      s.elements.length + l.length ≤ N →
      l.foldlM insertUnwrap s = some ⟨s.elements ++ l⟩ := by
  intro l
  induction l with
  | nil => intro s _ _; simp
  | cons x l ih =>
    intro s hnd hlen
    have hx : x ∉ s.elements := by
      intro hmem
      exact (((List.nodup_append.mp hnd).2.2) hmem (by simp)).elim
    have hlt : s.elements.length < N := by
      simp at hlen; omega
    have hstep : insertUnwrap s x = some ⟨s.elements ++ [x]⟩ := by
      simp [insertUnwrap, hx, hlt]
    have hrec := ih (⟨s.elements ++ [x]⟩ : Set V N)
      (by rw [List.append_assoc]; simpa using hnd)
      (by simp at hlen ⊢; omega)
    rw [List.foldlM_cons, hstep]
    simpa using hrec

theorem collect_eq {l : List V} (hnd : l.Nodup) (hlen : l.length ≤ N) :
    (collect l : Option (Set V N)) = some ⟨l⟩ := by
  have := foldlM_insertUnwrap_append l (new : Set V N)
    (by simpa [new] using hnd) (by simpa [new] using hlen)
  simpa [collect, new] using this

theorem foldlM_insertUnwrap_len_le :
    ∀ (l : List V) (s : Set V N), s.len ≤ N →
      ∀ r, l.foldlM insertUnwrap s = some r → r.len ≤ N := by
  intro l
  induction l with
  | nil =>
    intro s hs r hr
    simp at hr
    rw [← hr]; exact hs
  | cons x l ih =>
    intro s hs r hr
    rw [List.foldlM_cons] at hr
    by_cases hc : s.elements.contains x = true
    · have hv : x ∈ s.elements := by simpa using hc
      rw [show insertUnwrap s x = some s from by simp [insertUnwrap, hv]] at hr
      exact ih s hs r (by simpa using hr)
    · have hc' : s.elements.contains x = false := by simpa using hc
      by_cases h2 : s.elements.length < N
      · have hv : x ∉ s.elements := by simpa using hc'
        have hstep : insertUnwrap s x = some ⟨s.elements ++ [x]⟩ := by
          simp [insertUnwrap, hv, h2]
        rw [hstep] at hr
        refine ih (⟨s.elements ++ [x]⟩ : Set V N) ?_ r (by simpa using hr)
        simp [len]; omega
      · have hv : x ∉ s.elements := by simpa using hc'
        have hstep : insertUnwrap s x = none := by
          simp [insertUnwrap, hv, h2]
        rw [hstep] at hr
        simp at hr

theorem collect_len_le {l : List V} {r : Set V N}
    (h : collect l = some r) : r.len ≤ N :=
  foldlM_insertUnwrap_len_le l (new : Set V N) (by simp [len, new]) r h

theorem fromSet_elements [DecidableEq W] {f : V → W} {s : Set V N}
    (hs : s.wf) (hinj : ∀ x ∈ s.elements, ∀ y ∈ s.elements, f x = f y → x = y) :
    (fromSet f s).elements = s.elements.map f := by
  have hnd : (s.elements.map f).Nodup := hs.1.map_on hinj
  have hlen : (s.elements.map f).length ≤ N := by
    simpa using hs.2
  have hbody : fromSet f s = (s.elements.map f).foldl add (new : Set W N) := by
    simp [fromSet, List.foldl_map]
  rw [hbody]
  have := foldl_add_append (s.elements.map f) (new : Set W N)
    (by simpa [new] using hnd) (by simpa [new] using hlen)
  simpa [new] using this

theorem fromSet_wf [DecidableEq W] (f : V → W) (s : Set V N) :
    (fromSet f s).wf := by
  have hbody : fromSet f s = (s.elements.map f).foldl add (new : Set W N) := by
    simp [fromSet, List.foldl_map]
  rw [hbody]
  exact foldl_add_wf _ _ new_wf

theorem insert_len_le {s : Set V N} (v : V) (h : s.len ≤ N) :
    (s.insert v).len ≤ N := by
  by_cases hc : s.elements.contains v = true
  · rw [insert_of_mem hc]; exact h
  · have hc' : s.elements.contains v = false := by simpa using hc
    by_cases h2 : s.elements.length < N
    · have := insert_of_room hc' h2
      simp [len, this]; omega
    · rw [insert_of_full hc' h2]; exact h

end Set

namespace Map

variable {K V K1 V1 : Type} [DecidableEq K] {N : Nat}

theorem insert_key_of_mem {m : Map K V N} {k : K} {v : V}
    (h : m.keys.contains k = true) :
    (m.insert k v).entries =
      m.entries.map (fun p => if p.1 = k then (p.1, v) else p) := by
  have hk : k ∈ m.keys := by simpa using h
  simp [insert, hk]

theorem insert_key_of_room {m : Map K V N} {k : K} {v : V}
    (h : m.keys.contains k = false) (h2 : m.entries.length < N) :
    (m.insert k v).entries = m.entries ++ [(k, v)] := by
  have hk : k ∉ m.keys := by simpa using h
  simp [insert, hk, h2]

theorem insert_key_of_full {m : Map K V N} {k : K} {v : V}
    (h : m.keys.contains k = false) (h2 : ¬m.entries.length < N) :
    m.insert k v = m := by
  have hk : k ∉ m.keys := by simpa using h
  simp [insert, hk, h2]

theorem keys_insert_of_mem {m : Map K V N} {k : K} {v : V}
    (h : m.keys.contains k = true) : (m.insert k v).keys = m.keys := by
  rw [keys, insert_key_of_mem h, List.map_map]
  apply List.map_congr_left
  intro p _
  by_cases hp : p.1 = k <;> simp [hp]

theorem new_map_wf : (new : Map K V N).wf := by
  simp [wf, new, keys]

theorem insert_map_wf {m : Map K V N} (k : K) (v : V) (hm : m.wf) :
    (m.insert k v).wf := by
  by_cases h : m.keys.contains k = true
  · constructor
    · rw [keys_insert_of_mem h]; exact hm.1
    · rw [insert_key_of_mem h]
      simpa using hm.2
  · have h' : m.keys.contains k = false := by simpa using h
    by_cases h2 : m.entries.length < N
    · have hent : (m.insert k v).entries = m.entries ++ [(k, v)] :=
        insert_key_of_room h' h2
      have hk : k ∉ m.keys := by simpa using h'
      constructor
      · have hkeys : (m.insert k v).keys = m.keys ++ [k] := by
          simp [keys, hent]
        rw [hkeys]
        refine List.Nodup.append hm.1 (by simp) ?_
        intro a ha hb
        simp at hb
        subst hb
        exact hk ha
      · simp [hent]; omega
    · rw [insert_key_of_full h' h2]; exact hm

theorem foldl_add_append_entries :
    ∀ (l : List (K × V)) (m : Map K V N),
      (m.keys ++ l.map Prod.fst).Nodup →
      m.entries.length + l.length ≤ N →
      (l.foldl (fun m kv => m.add kv.1 kv.2) m).entries = m.entries ++ l := by
  intro l
  induction l with
  | nil => intro m _ _; simp
  | cons x l ih =>
    intro m hnd hlen
    have hx : x.1 ∉ m.keys := by
      intro hmem
      have hd := (List.nodup_append.mp hnd).2.2
      exact (hd hmem (by simp)).elim
    have hcon : m.keys.contains x.1 = false := by simpa using hx
    have hlt : m.entries.length < N := by
      simp at hlen; omega
    have hstep : (m.add x.1 x.2).entries = m.entries ++ [(x.1, x.2)] :=
      insert_key_of_room hcon hlt
    have hkeys : (m.add x.1 x.2).keys = m.keys ++ [x.1] := by
      simp [keys, hstep]
    have hrec := ih (m.add x.1 x.2)
      (by rw [hkeys, List.append_assoc]; simpa using hnd)
      (by rw [hstep]; simp at hlen ⊢; omega)
    rw [List.foldl_cons, hrec, hstep, List.append_assoc]
    simp

theorem foldl_add_map_wf :
    ∀ (l : List (K × V)) (m : Map K V N), m.wf →
      (l.foldl (fun m kv => m.add kv.1 kv.2) m).wf := by
  intro l
  induction l with
  | nil => intro m hm; simpa using hm
  | cons x l ih => intro m hm; exact ih (m.add x.1 x.2) (insert_map_wf x.1 x.2 hm)

theorem fromMap_entries [DecidableEq K1] {fk : K → K1} {fv : V → V1}
    {m : Map K V N} (hm : m.wf)
    (hinj : ∀ x ∈ m.keys, ∀ y ∈ m.keys, fk x = fk y → x = y) :
    (fromMap fk fv m).entries = m.entries.map (fun kv => (fk kv.1, fv kv.2)) := by
  have hbody : fromMap fk fv m =
      (m.entries.map (fun kv => (fk kv.1, fv kv.2))).foldl
        (fun t kv => t.add kv.1 kv.2) (new : Map K1 V1 N) := by
    simp [fromMap, List.foldl_map]
  rw [hbody]
  have hkeys : (m.entries.map (fun kv => (fk kv.1, fv kv.2))).map Prod.fst =
      m.keys.map fk := by
    simp [keys, List.map_map]
  refine (foldl_add_append_entries _ (new : Map K1 V1 N) ?_ ?_).trans (by simp [new])
  · rw [hkeys]
    simpa [new, keys] using hm.1.map_on hinj
  · simpa [new] using hm.2

theorem fromMap_wf [DecidableEq K1] (fk : K → K1) (fv : V → V1)
    (m : Map K V N) : (fromMap fk fv m).wf := by
  have hbody : fromMap fk fv m =
      (m.entries.map (fun kv => (fk kv.1, fv kv.2))).foldl
        (fun t kv => t.add kv.1 kv.2) (new : Map K1 V1 N) := by
    simp [fromMap, List.foldl_map]
  rw [hbody]
  exact foldl_add_map_wf _ _ new_map_wf

theorem insert_key_len_le {m : Map K V N} (k : K) (v : V) (h : m.len ≤ N) :
    (m.insert k v).len ≤ N := by
  by_cases hc : m.keys.contains k = true
  · simp [len, insert_key_of_mem hc]
    simpa [len] using h
  · have hc' : m.keys.contains k = false := by simpa using hc
    by_cases h2 : m.entries.length < N
    · simp [len, insert_key_of_room hc' h2]
      omega
    · rw [insert_key_of_full hc' h2]; exact h

end Map

/-!
The claims.
-/

/-- C1: For every bounded set and bounded map of capacity `N` (the three
visibility variants share one macro-generated implementation), every operation
keeps `len() ≤ N` on every collection it ever returns — for `merge`, whose
overflow path goes through the heapless `collect` and its unwrapping panic
rather than a silent drop, this says that whenever `merge` does return
(`some`), the bound holds; in particular, `insert` or `add` of a new
element/key on a collection whose length already equals `N` is a silent no-op:
it returns the collection unchanged — same length, same entries, same
iteration order — with no panic and no error (the heapless `Err` is
discarded by `let _ = ...`). -/
theorem capacity_invariant {α β γ : Type} [DecidableEq α] [DecidableEq γ]
    {N : Nat} (f : α → γ) (s b sf : Set α N) (v : α) (l : List α)
    (m mf : Map α β N) (k : α) (w : β) (lm : List (α × β))
    (hs : s.len ≤ N) (hm : m.len ≤ N)
    (hsf : sf.len = N) (hsv : sf.contains v = false)
    (hmf : mf.len = N) (hmk : mf.contains_key k = false) :
    ((s.insert v).len ≤ N ∧ (s.add v).len ≤ N ∧
      (m.insert k w).len ≤ N ∧ (m.add k w).len ≤ N ∧
      (Set.new : Set α N).len ≤ N ∧ (Set.init v : Set α N).len ≤ N ∧
      (Set.init_with_elements l : Set α N).len ≤ N ∧
      (∀ r : Set α N, s.merge b = some r → r.len ≤ N) ∧
      (Set.fromSet f s).len ≤ N ∧
      (Map.new : Map α β N).len ≤ N ∧ (Map.init k w : Map α β N).len ≤ N ∧
      (Map.init_with_elements lm : Map α β N).len ≤ N ∧
      (Map.fromMap f (fun x : β => x) m).len ≤ N) ∧
    (sf.insert v = sf ∧ sf.add v = sf ∧ (sf.insert v).len = N ∧
      (sf.insert v).iter = sf.iter) ∧
    (mf.insert k w = mf ∧ mf.add k w = mf ∧ (mf.insert k w).len = N ∧
      (mf.insert k w).iter = mf.iter) := by
  have hsfull : ¬sf.elements.length < N := by
    simp [Set.len] at hsf; omega
  have hmfull : ¬mf.entries.length < N := by
    simp [Map.len] at hmf; omega
  have hsnoop : sf.insert v = sf := Set.insert_of_full hsv hsfull
  have hmnoop : mf.insert k w = mf := Map.insert_key_of_full hmk hmfull
  refine ⟨⟨Set.insert_len_le v hs, Set.insert_len_le v hs,
    Map.insert_key_len_le k w hm, Map.insert_key_len_le k w hm,
    by simp [Set.len, Set.new],
    Set.insert_len_le v (by simp [Set.len, Set.new]),
    (Set.foldl_add_wf l Set.new Set.new_wf).2,
    fun r hr => Set.collect_len_le hr,
    (Set.fromSet_wf f s).2,
    by simp [Map.len, Map.new],
    Map.insert_key_len_le k w (by simp [Map.len, Map.new]),
    (Map.foldl_add_map_wf lm Map.new Map.new_map_wf).2,
    (Map.fromMap_wf f (fun x : β => x) m).2⟩,
    ⟨hsnoop, hsnoop, by rw [hsnoop]; exact hsf, by rw [hsnoop]⟩,
    ⟨hmnoop, hmnoop, by rw [hmnoop]; exact hmf, by rw [hmnoop]⟩⟩

/-- Witness for C1 at concrete inputs: capacity 2, a full set `{0, 1}` and a
full map `{0 ↦ 0, 1 ↦ 1}`, with fresh element `5` and fresh key `7`; the
merge bound is exercised on the returned merge of `{0}` and `{1}`. -/
theorem capacity_invariant_witness :
    ((Set.mk [0, 1] : Set Nat 2).len = 2 ∧
      (Set.mk [0, 1] : Set Nat 2).contains 5 = false) ∧
    (Set.mk [0, 1] : Set Nat 2).insert 5 = Set.mk [0, 1] ∧
    (Map.mk [(0, 0), (1, 1)] : Map Nat Nat 2).insert 7 9 =
      Map.mk [(0, 0), (1, 1)] ∧
    (Set.mk [0, 1] : Set Nat 2).len ≤ 2 := by
  refine ⟨by decide, ?_, ?_, ?_⟩
  · exact (capacity_invariant (fun x : Nat => x) (Set.mk [0])
      (Set.mk [1]) (Set.mk [0, 1]) 5 [3]
      (Map.mk [(0, 0)]) (Map.mk [(0, 0), (1, 1)]) 7 9 [(4, 4)]
      (by decide) (by decide) (by decide) (by decide) (by decide)
      (by decide)).2.1.1
  · exact (capacity_invariant (fun x : Nat => x) (Set.mk [0])
      (Set.mk [1]) (Set.mk [0, 1]) 5 [3]
      (Map.mk [(0, 0)]) (Map.mk [(0, 0), (1, 1)]) 7 9 [(4, 4)]
      (by decide) (by decide) (by decide) (by decide) (by decide)
      (by decide)).2.2.1
  · exact (capacity_invariant (fun x : Nat => x) (Set.mk [0])
      (Set.mk [1]) (Set.mk [0, 1]) 5 [3]
      (Map.mk [(0, 0)]) (Map.mk [(0, 0), (1, 1)]) 7 9 [(4, 4)]
      (by decide) (by decide) (by decide) (by decide) (by decide)
      (by decide)).1.2.2.2.2.2.2.2.1 (Set.mk [0, 1]) (by decide)

/-- C3: Inserting `k` distinct keys into a bounded map of capacity `N ≥ k`
(and `k` distinct elements into a bounded set) yields `len() = k`, and
iteration returns the entries exactly in insertion order. -/
theorem distinct_insertions_in_order {α β : Type} [DecidableEq α] {N : Nat}
    (l : List (α × β)) (e : List α)
    (hk : (l.map Prod.fst).Nodup) (hlen : l.length ≤ N)
    (he : e.Nodup) (helen : e.length ≤ N) :
    (l.foldl (fun m kv => m.insert kv.1 kv.2) (Map.new : Map α β N)).len
        = l.length ∧
    (l.foldl (fun m kv => m.insert kv.1 kv.2) (Map.new : Map α β N)).iter = l ∧
    (e.foldl Set.insert (Set.new : Set α N)).len = e.length ∧
    (e.foldl Set.insert (Set.new : Set α N)).iter = e := by
  have hmap :
      (l.foldl (fun m kv => m.insert kv.1 kv.2) (Map.new : Map α β N)).entries
        = l := by
    have := Map.foldl_add_append_entries l (Map.new : Map α β N)
      (by simpa [Map.new, Map.keys] using hk)
      (by simpa [Map.new] using hlen)
    simpa [Map.new] using this
  have hset : (e.foldl Set.insert (Set.new : Set α N)).elements = e := by
    have := Set.foldl_add_append e (Set.new : Set α N)
      (by simpa [Set.new] using he)
      (by simpa [Set.new] using helen)
    simpa [Set.new, Set.add] using this
  exact ⟨by simp [Map.len, hmap], by simp [Map.iter, hmap],
    by simp [Set.len, hset], by simp [Set.iter, hset]⟩

/-- Witness for C3: two distinct keys into a capacity-2 map and two distinct
elements into a capacity-2 set. -/
theorem distinct_insertions_in_order_witness :
    ([((1 : Nat), (10 : Nat)), (2, 20)].foldl
        (fun m kv => m.insert kv.1 kv.2) (Map.new : Map Nat Nat 2)).iter
      = [(1, 10), (2, 20)] ∧
    ([(5 : Nat), 6].foldl Set.insert (Set.new : Set Nat 2)).len = 2 := by
  refine ⟨?_, ?_⟩
  · exact (distinct_insertions_in_order [(1, 10), (2, 20)] [5, 6]
      (by decide) (by decide) (by decide) (by decide)).2.1
  · exact (distinct_insertions_in_order [((1 : Nat), (10 : Nat)), (2, 20)]
      [5, 6] (by decide) (by decide) (by decide) (by decide)).2.2.1

/-- C4: Re-inserting an existing key into a bounded map replaces the stored
value (last write wins) but keeps the key's position — the key sequence is
unchanged — and does not increase `len()`; and the `Parameters` example:
`Parameters::new().u8("x", 5).u8("x", 9)` finalized through `serialize_data`
yields the single entry `"x" ↦ U8 { default: 9 }`. -/
theorem reinsert_existing_key {α β : Type} [DecidableEq α] {N : Nat}
    (m : Map α β N) (k : α) (v : β) (hk : m.contains_key k = true) :
    (m.insert k v).len = m.len ∧
    (m.insert k v).keys = m.keys ∧
    (m.insert k v).iter = m.iter.map (fun p => if p.1 = k then (p.1, v) else p) ∧
    (((Parameters.new : Parameters 2).u8 "x" 5).u8 "x" 9).serialize_data.iter
      = [("x", ParameterKind.U8 9)] := by
  have hent : (m.insert k v).entries =
      m.entries.map (fun p => if p.1 = k then (p.1, v) else p) :=
    Map.insert_key_of_mem hk
  refine ⟨?_, Map.keys_insert_of_mem hk, ?_, ?_⟩
  · simp [Map.len, hent]
  · simp [Map.iter, hent]
  · decide

/-- Witness for C4: re-inserting key `2` into `{1 ↦ 10, 2 ↦ 20}` with value
`99` keeps length 2 and the key order `[1, 2]`. -/
theorem reinsert_existing_key_witness :
    ((Map.mk [(1, 10), (2, 20)] : Map Nat Nat 2).insert 2 99).len = 2 ∧
    ((Map.mk [(1, 10), (2, 20)] : Map Nat Nat 2).insert 2 99).keys = [1, 2] := by
  refine ⟨?_, ?_⟩
  · have := (reinsert_existing_key
      (Map.mk [(1, 10), (2, 20)] : Map Nat Nat 2) 2 99 (by decide)).1
    simpa using this
  · exact (reinsert_existing_key
      (Map.mk [(1, 10), (2, 20)] : Map Nat Nat 2) 2 99 (by decide)).2.1

/-- C5: `String::<N>::new(s)` succeeds exactly when the byte length of `s` is
at most `N`, and the failing mutations are atomic: a `push` that returns `Ok`
appends, and a `push` or `push_char` that returns an error leaves the buffer
exactly as it was (and only fires when the result would exceed `N` bytes). -/
theorem bounded_text_new_iff_and_push_atomic {N : Nat}
    (text t t2 : List Char) (c : Char) (b bc b2 : BoundedString N)
    (hfail : (b.push t).1.isOk = false)
    (hcfail : (bc.push_char c).1.isOk = false)
    (hok : (b2.push t2).1.isOk = true) :
    ((BoundedString.new N text).isOk = true ↔ byteLen text ≤ N) ∧
    ((b.push t).2 = b ∧ N < byteLen b.chars + byteLen t) ∧
    ((bc.push_char c).2 = bc ∧ N < byteLen bc.chars + c.utf8Size) ∧
    (b2.push t2).2.chars = b2.chars ++ t2 := by
  refine ⟨?_, ?_, ?_, ?_⟩
  · unfold BoundedString.new
    by_cases h : byteLen text ≤ N <;> simp [h, Except.isOk, Except.toBool]
  · unfold BoundedString.push at hfail ⊢
    by_cases h : byteLen b.chars + byteLen t ≤ N
    · simp [h, Except.isOk, Except.toBool] at hfail
    · simp [h]; omega
  · unfold BoundedString.push_char at hcfail ⊢
    by_cases h : byteLen bc.chars + c.utf8Size ≤ N
    · simp [h, Except.isOk, Except.toBool] at hcfail
    · simp [h]; omega
  · unfold BoundedString.push at hok ⊢
    by_cases h : byteLen b2.chars + byteLen t2 ≤ N
    · simp [h]
    · simp [h, Except.isOk, Except.toBool] at hok

/-- Witness for C5 at byte capacity 3: pushing `"xy"` onto `"ab"` fails and
leaves `"ab"`, pushing the two-byte character `é` onto `"ab"` fails and leaves
`"ab"`, and pushing `"c"` onto `"ab"` succeeds and appends. -/
theorem bounded_text_new_iff_and_push_atomic_witness :
    ((BoundedString.new 3 ['a', 'b']).isOk = true ↔
      byteLen ['a', 'b'] ≤ 3) ∧
    ((BoundedString.mk ['a', 'b'] : BoundedString 3).push ['x', 'y']).2 =
      BoundedString.mk ['a', 'b'] ∧
    ((BoundedString.mk ['a', 'b'] : BoundedString 3).push_char 'é').2 =
      BoundedString.mk ['a', 'b'] ∧
    ((BoundedString.mk ['a', 'b'] : BoundedString 3).push ['c']).2.chars =
      ['a', 'b', 'c'] := by
  have h := bounded_text_new_iff_and_push_atomic ['a', 'b'] ['x', 'y'] ['c'] 'é'
    (BoundedString.mk ['a', 'b'] : BoundedString 3)
    (BoundedString.mk ['a', 'b']) (BoundedString.mk ['a', 'b'])
    (by decide) (by decide) (by decide)
  exact ⟨h.1, h.2.1.1, h.2.2.1.1, h.2.2.2⟩

/-- C6: For two same-typed bounded sets whose union fits the capacity `N`,
`a.merge(&b)` returns (the collect's unwrapping panic is unreachable on this
domain) and the resulting set holds exactly the union: `a`'s elements first in
their original order, then the elements of `b` not already in `a`, in `b`'s
iteration order; membership afterwards is the disjunction of the two
memberships. -/
theorem merge_is_ordered_union {α : Type} [DecidableEq α] {N : Nat}
    (a b : Set α N) (x : α) (ha : a.wf) (hb : b.wf)
    (hfit : (Set.unionSeq a b).length ≤ N) :
    ∃ r : Set α N, a.merge b = some r ∧
      r.iter = a.iter ++ b.iter.filter (fun y => !a.contains y) ∧
      r.contains x = (a.contains x || b.contains x) ∧
      r.wf := by
  have hnd : (Set.unionSeq a b).Nodup := by
    refine List.Nodup.append ha.1 (hb.1.filter _) ?_
    intro y hy hyf
    have := List.of_mem_filter hyf
    simp at this
    exact this hy
  have hmerge : a.merge b = some ⟨Set.unionSeq a b⟩ := by
    unfold Set.merge
    exact Set.collect_eq hnd hfit
  refine ⟨⟨Set.unionSeq a b⟩, hmerge, rfl, ?_, hnd, hfit⟩
  by_cases hx : x ∈ a.elements
  · simp [Set.contains, Set.unionSeq, hx]
  · by_cases hxb : x ∈ b.elements <;>
      simp [Set.contains, Set.unionSeq, hx, hxb]

/-- Witness for C6: merging `{1, 2}` with `{2, 3}` at capacity 4 returns a
set holding `[1, 2, 3]`. -/
theorem merge_is_ordered_union_witness :
    ∃ r : Set Nat 4, (Set.mk [1, 2] : Set Nat 4).merge (Set.mk [2, 3]) = some r ∧
      r.iter = [1, 2] ++
        [2, 3].filter (fun y => !(Set.mk [1, 2] : Set Nat 4).contains y) ∧
      r.contains 3 = ((Set.mk [1, 2] : Set Nat 4).contains 3 ||
        (Set.mk [2, 3] : Set Nat 4).contains 3) := by
  obtain ⟨r, hr, hiter, hcont, _⟩ := merge_is_ordered_union
    (Set.mk [1, 2] : Set Nat 4) (Set.mk [2, 3]) 3
    (by decide) (by decide) (by decide)
  exact ⟨r, hr, hiter, hcont⟩

/-- C7: Converting a bounded collection to each visibility variant and back
(the `from_set!` / `from_map!` element-by-element copy, with the element
coercions being mutually inverse on the stored content and the capacities
matching) preserves the stored elements, entries, and their iteration order
exactly; a single hop already preserves the sequence through the coercion. -/
theorem visibility_roundtrip {α β κ κ1 ν ν1 : Type}
    [DecidableEq α] [DecidableEq β] [DecidableEq κ] [DecidableEq κ1] {N : Nat}
    (f : α → β) (g : β → α) (s : Set α N)
    (fk : κ → κ1) (gk : κ1 → κ) (fv : ν → ν1) (gv : ν1 → ν)
    (m : Map κ ν N) (hs : s.wf) (hm : m.wf)
    (hfg : ∀ x ∈ s.elements, g (f x) = x)
    (hgk : ∀ p ∈ m.entries, gk (fk p.1) = p.1)
    (hgv : ∀ p ∈ m.entries, gv (fv p.2) = p.2) :
    (Set.fromSet f s).iter = s.iter.map f ∧
    (Set.fromSet g (Set.fromSet f s)).iter = s.iter ∧
    (Map.fromMap gk gv (Map.fromMap fk fv m)).iter = m.iter := by
  have hfinj : ∀ x ∈ s.elements, ∀ y ∈ s.elements, f x = f y → x = y := by
    intro x hx y hy hxy
    have := congrArg g hxy
    rw [hfg x hx, hfg y hy] at this
    exact this
  have h1 : (Set.fromSet f s).elements = s.elements.map f :=
    Set.fromSet_elements hs hfinj
  have hginj : ∀ x ∈ (Set.fromSet f s).elements,
      ∀ y ∈ (Set.fromSet f s).elements, g x = g y → x = y := by
    rw [h1]
    intro x hx y hy hxy
    obtain ⟨x0, hx0, rfl⟩ := List.mem_map.mp hx
    obtain ⟨y0, hy0, rfl⟩ := List.mem_map.mp hy
    rw [hfg x0 hx0, hfg y0 hy0] at hxy
    rw [hxy]
  have h2 : (Set.fromSet g (Set.fromSet f s)).elements =
      (Set.fromSet f s).elements.map g :=
    Set.fromSet_elements (Set.fromSet_wf f s) hginj
  have hgkk : ∀ k0 ∈ m.keys, gk (fk k0) = k0 := by
    intro k0 hk0
    obtain ⟨p, hp, rfl⟩ := List.mem_map.mp hk0
    exact hgk p hp
  have hkinj : ∀ x ∈ m.keys, ∀ y ∈ m.keys, fk x = fk y → x = y := by
    intro x hx y hy hxy
    have := congrArg gk hxy
    rw [hgkk x hx, hgkk y hy] at this
    exact this
  have hm1 : (Map.fromMap fk fv m).entries =
      m.entries.map (fun kv => (fk kv.1, fv kv.2)) :=
    Map.fromMap_entries hm hkinj
  have hkeys1 : (Map.fromMap fk fv m).keys = m.keys.map fk := by
    simp [Map.keys, hm1, List.map_map]
  have hk1inj : ∀ x ∈ (Map.fromMap fk fv m).keys,
      ∀ y ∈ (Map.fromMap fk fv m).keys, gk x = gk y → x = y := by
    intro x hx y hy hxy
    rw [hkeys1] at hx hy
    obtain ⟨x0, hx0, rfl⟩ := List.mem_map.mp hx
    obtain ⟨y0, hy0, rfl⟩ := List.mem_map.mp hy
    rw [hgkk x0 hx0, hgkk y0 hy0] at hxy
    rw [hxy]
  have hm2 : (Map.fromMap gk gv (Map.fromMap fk fv m)).entries =
      (Map.fromMap fk fv m).entries.map (fun kv => (gk kv.1, gv kv.2)) :=
    Map.fromMap_entries (Map.fromMap_wf fk fv m) hk1inj
  refine ⟨by simpa [Set.iter] using h1, ?_, ?_⟩
  · have hpt : ∀ x ∈ s.elements, (g ∘ f) x = id x := fun x hx => hfg x hx
    rw [Set.iter, h2, h1, List.map_map, List.map_congr_left hpt, List.map_id]
    exact rfl
  · have hpt : ∀ p ∈ m.entries,
        ((fun kv : κ1 × ν1 => (gk kv.1, gv kv.2)) ∘
          fun kv : κ × ν => (fk kv.1, fv kv.2)) p = id p := by
      intro p hp
      simp [Function.comp, hgk p hp, hgv p hp]
    rw [Map.iter, hm2, hm1, List.map_map, List.map_congr_left hpt, List.map_id]
    exact rfl

/-- Witness for C7: the identity coercions on a two-element set and a
two-entry map of capacity 2. -/
theorem visibility_roundtrip_witness :
    (Set.fromSet (fun x : Nat => x)
        (Set.fromSet (fun x : Nat => x) (Set.mk [4, 7] : Set Nat 2))).iter =
      [4, 7] ∧
    (Map.fromMap (fun x : Nat => x) (fun y : Nat => y)
        (Map.fromMap (fun x : Nat => x) (fun y : Nat => y)
          (Map.mk [(1, 5), (2, 6)] : Map Nat Nat 2))).iter =
      [(1, 5), (2, 6)] := by
  have h := visibility_roundtrip (fun x : Nat => x) (fun x : Nat => x)
    (Set.mk [4, 7] : Set Nat 2) (fun x : Nat => x) (fun x : Nat => x)
    (fun y : Nat => y) (fun y : Nat => y)
    (Map.mk [(1, 5), (2, 6)] : Map Nat Nat 2)
    (by decide) (by decide) (by decide) (by decide) (by decide)
  exact ⟨h.2.1, h.2.2⟩

/-- C2: Evaluation of the route identity code at the failing input.  Two
routes with the same name and REST verb that differ only in their description
compare equal under `Route`'s `PartialEq` (name and verb only), yet `Route`'s
`Hash` implementation feeds the description to the hasher as well, so the two
equal routes present different hash inputs — contradicting the claim (and the
`Eq`/`Hash` consistency the `Routes` hash set relies on).  The finalized
`RouteConfig` side of the claim does hold: equality and the hashed fields are
`(name, REST verb)` only, so the two finalized configs compare equal and hash
identically. -/
theorem route_hash_includes_description :
    Route.beq (Route.get "/route")
      ((Route.get "/route").set_description "A GET route") = true ∧
    Route.hashStream (Route.get "/route") ≠
      Route.hashStream ((Route.get "/route").set_description "A GET route") ∧
    RouteConfig.beq (Route.get "/route").serialize_data
      ((Route.get "/route").set_description "A GET route").serialize_data
      = true ∧
    RouteConfig.hashStream (Route.get "/route").serialize_data =
      RouteConfig.hashStream
        ((Route.get "/route").set_description "A GET route").serialize_data := by
  refine ⟨rfl, ?_, rfl, rfl⟩
  decide

/-- C8: Encoding a `DeviceInfo` omits the `energy` field exactly when the
Energy record's three optional fields are all absent, and omits `economy`
exactly when both its fields are absent; when a group is present, its encoding
lists exactly its present sub-fields. -/
theorem empty_groups_omitted {C R E CF : Nat} (d : DeviceInfo C R E CF) :
    (("economy" ∈ d.encode.map Prod.fst) ↔ d.economy.is_empty = false) ∧
    (("energy" ∈ d.encode.map Prod.fst) ↔ d.energy.is_empty = false) ∧
    (("energy-efficiencies" ∈ d.energy.encode.map Prod.fst) ↔
      d.energy.energy_efficiencies.isSome = true) ∧
    (("carbon-footprints" ∈ d.energy.encode.map Prod.fst) ↔
      d.energy.carbon_footprints.isSome = true) ∧
    (("water-use-efficiency" ∈ d.energy.encode.map Prod.fst) ↔
      d.energy.water_use_efficiency.isSome = true) ∧
    (("costs" ∈ d.economy.encode.map Prod.fst) ↔
      d.economy.costs.isSome = true) ∧
    (("roi" ∈ d.economy.encode.map Prod.fst) ↔
      d.economy.roi.isSome = true) := by
  obtain ⟨⟨co, ro⟩, ⟨ee, cf, wu⟩⟩ := d
  cases co <;> cases ro <;> cases ee <;> cases cf <;> cases wu <;>
    simp [DeviceInfo.encode, Energy.encode, Economy.encode,
      Energy.is_empty, Economy.is_empty]

/-- C9, the claim as stated is false: the `Display` implementation uses
`writeln!`, which appends a newline after the `"{kind}: {info} "` text, so
the rendering is not "nothing after the trailing space".  Counterexample at a
concrete error value. -/
theorem error_display_not_space_terminated :
    (Error.new ErrorKind.FixedText "cause").display ≠
      "Fixed-size text: cause " := by
  decide

/-- C9 as amended: for every `Error`, the `Display` rendering is exactly
`"{kind}: {info} \n"` — the kind's static description (`"Fixed-size text"`
for the only kind, `FixedText`), a colon and space, the caller-supplied cause
string, one trailing space, and the newline appended by `writeln!`. -/
theorem error_display_format (info : String) :
    (Error.new ErrorKind.FixedText info).display =
      "Fixed-size text: " ++ info ++ " \n" := by
  show ("Fixed-size text" ++ ": " ++ info ++ " ") ++ "\n" =
    "Fixed-size text: " ++ info ++ " \n"
  apply String.ext
  simp [String.data_append]

/-- C10: Every finalized `RouteConfig` carries
`response_kind = ResponseKind::default()`: `serialize_data` is the only way to
produce one, it always writes the default, and none of the public route
operations (the four verb constructors, `description`, `change_route`,
`with_hazards`, `with_parameters`) touches a response kind, nor does any
public `RouteConfig` operation change it afterwards. -/
theorem response_kind_always_default {H P H2 P2 : Nat} (r : Route H P)
    (d nm path : String) (hz : Hazards H2) (ps : Parameters P2) :
    (Route.get path).serialize_data.response_kind = ResponseKind.default ∧
    (Route.put path).serialize_data.response_kind = ResponseKind.default ∧
    (Route.post path).serialize_data.response_kind = ResponseKind.default ∧
    (Route.delete path).serialize_data.response_kind = ResponseKind.default ∧
    r.serialize_data.response_kind = ResponseKind.default ∧
    ((r.set_description d).serialize_data).response_kind =
      ResponseKind.default ∧
    ((r.change_route nm).serialize_data).response_kind =
      ResponseKind.default ∧
    ((r.with_hazards hz).serialize_data).response_kind =
      ResponseKind.default ∧
    ((r.with_parameters ps).serialize_data).response_kind =
      ResponseKind.default :=
  ⟨rfl, rfl, rfl, rfl, rfl, rfl, rfl, rfl, rfl⟩

end Tosca
